import Mathlib

/-!
Shallow embedding of the Bitbucket Cloud REST API client (`BitbucketClient`)
in Lean 4.

The client is a thin mapping from method calls to HTTP requests.  Each
endpoint method is modelled as a pure function from its arguments and from
the sequence of server responses it will receive (the "server script") to
the value it returns, together with the trace of requests it issues, in
order.  JavaScript strings are Lean `String`s except where a proof needs
character-level induction (the `Location` header parsing of `commitFile` /
`removeFile`), where they are `List Char`.
-/

namespace Bitbucket

/-- Model of the paginated response envelope (`PaginatedResponse<T>` in
`src/types/api.ts`): `values`, the current `page` number and the optional
`next` link.  (`pagelen`, `size` and `previous` are never read by the
client and are omitted.) -/
structure PaginatedEnv (α : Type) where
  values : List α
  page : Nat
  next : Option String
deriving DecidableEq

/-- JavaScript truthiness of an optional string field (`if (next)`):
`undefined` and the empty string are falsy. -/
def truthyString : Option String → Bool
  | none => false
  | some s => s != ""

/-- JavaScript truthiness of the optional `requestPage` number argument
(`requestPage ? ... : ''` and `if (requestPage)`): the page parameter is
put on the request iff `requestPage` is defined and nonzero. -/
def pageParamOf : Option Nat → Option Nat
  | none => none
  | some p => if p = 0 then none else some p

/-- Model of the request issued by one step of `getRepositoriesByProject`:
the `repositories/{workspace}` listing filtered by project key, with the
optional `page` query parameter. -/
structure RepoListRequest where
  workspace : String
  projectKey : String
  page : Option Nat
deriving DecidableEq

/-- The URL string the source builds for a `RepoListRequest`. -/
def RepoListRequest.url (r : RepoListRequest) : String :=
  "repositories/" ++ r.workspace ++ "?q=project.key=\"" ++ r.projectKey ++ "\"" ++
    (match r.page with
     | some p => "&page=" ++ toString p
     | none => "")

/-- Model of `BitbucketClient.getRepositoriesByProject`: issue a request
for the target page; if the decoded envelope has a truthy `next` link,
recursively fetch page `currentPage + 1` and concatenate the recursive
items after the current page's items.  The server is modelled by the list
of envelopes it will answer with, in order; an exhausted script (`[]`) is
`none` (a transport failure, which the method does not handle).  The
result pairs the returned items with the trace of requests issued. -/
def getRepositoriesByProject {α : Type} (workspace projectKey : String)
    (requestPage : Option Nat) :
    List (PaginatedEnv α) → Option (List α × List RepoListRequest)
  | [] => none
  | res :: rest =>
    let req : RepoListRequest := ⟨workspace, projectKey, pageParamOf requestPage⟩
    if truthyString res.next then
      match getRepositoriesByProject workspace projectKey (some (res.page + 1)) rest with
      | none => none
      | some (values2, reqs) => some (res.values ++ values2, req :: reqs)
    else
      some (res.values, [req])

/-- Model of the request issued by one step of `codeSearch`:
`workspaces/{workspace}/search/code` with query parameters `search_query`,
the fixed `fields` expansion, and the optional `page`. -/
structure CodeSearchRequest where
  workspace : String
  search_query : String
  fields : String
  page : Option Nat
deriving DecidableEq

/-- The query parameters `codeSearch` builds: `search_query`, the fixed
field expansion, and `page` appended only when `requestPage` is truthy. -/
def codeSearchRequest (workspace query : String) (requestPage : Option Nat) :
    CodeSearchRequest :=
  ⟨workspace, query, "+values.file.commit.repository", pageParamOf requestPage⟩

/-- Model of `BitbucketClient.codeSearch`: same recursive pagination as
`getRepositoriesByProject`, over the code-search endpoint. -/
def codeSearch {α : Type} (workspace query : String) (requestPage : Option Nat) :
    List (PaginatedEnv α) → Option (List α × List CodeSearchRequest)
  | [] => none
  | res :: rest =>
    let req := codeSearchRequest workspace query requestPage
    if truthyString res.next then
      match codeSearch workspace query (some (res.page + 1)) rest with
      | none => none
      | some (values2, reqs) => some (res.values ++ values2, req :: reqs)
    else
      some (res.values, [req])

/-- Model of `IPipelineVariable`. -/
structure PipelineVariable where
  uuid : String
  key : String
  value : String
  secured : Bool
deriving DecidableEq

/-- The JSON body of the POST issued by `createRepoVariable`. -/
structure CreateVariableBody where
  type : String
  key : String
  value : String
  secured : Bool
deriving DecidableEq

/-- The JSON body of the PUT issued by `updateRepoVariable`. -/
structure UpdateVariableBody where
  type : String
  uuid : String
  key : String
  value : String
  secured : Bool
deriving DecidableEq

/-- Requests of the pipeline-variable endpoint family. -/
inductive VariableApiRequest where
  | get (path : String)
  | post (path : String) (body : CreateVariableBody)
  | put (path : String) (body : UpdateVariableBody)
  | delete (path : String)
deriving DecidableEq

def VariableApiRequest.isPost : VariableApiRequest → Bool
  | .post _ _ => true
  | _ => false

def VariableApiRequest.isPut : VariableApiRequest → Bool
  | .put _ _ => true
  | _ => false

def VariableApiRequest.isDelete : VariableApiRequest → Bool
  | .delete _ => true
  | _ => false

/-- The `secured` field of the body a request carries, when it has one. -/
def VariableApiRequest.securedField : VariableApiRequest → Option Bool
  | .post _ b => some b.secured
  | .put _ b => some b.secured
  | _ => none

def variablesPath (workspace repoSlug : String) : String :=
  "repositories/" ++ workspace ++ "/" ++ repoSlug ++ "/pipelines_config/variables"

/-- The GET issued by `getRepoVariables`; its response's `values` is the
`repoVars` list the composite operations consult. -/
def getRepoVariablesRequest (workspace repoSlug : String) : VariableApiRequest :=
  .get (variablesPath workspace repoSlug)

/-- Model of `BitbucketClient.createRepoVariable`: the POST it issues,
with `type` and `secured` hard-coded. -/
def createRepoVariable (workspace repoSlug varName varValue : String) :
    VariableApiRequest :=
  .post (variablesPath workspace repoSlug)
    ⟨"pipeline_variable", varName, varValue, true⟩

/-- Model of `BitbucketClient.updateRepoVariable`: the PUT it issues to
the uuid-qualified path, with `type` and `secured` hard-coded. -/
def updateRepoVariable (workspace repoSlug varUuid varName varValue : String) :
    VariableApiRequest :=
  .put (variablesPath workspace repoSlug ++ "/" ++ varUuid)
    ⟨"pipeline_variable", varUuid, varName, varValue, true⟩

/-- Model of `BitbucketClient.setRepoVariable`: list the variables, look
the name up with `find`, then create when absent and update otherwise.
`repoVars` is the `values` list of the listing response; the result is the
trace of requests issued. -/
def setRepoVariable (workspace repoSlug varName varValue : String)
    (repoVars : List PipelineVariable) : List VariableApiRequest :=
  match repoVars.find? (fun v => v.key == varName) with
  | none =>
    [getRepoVariablesRequest workspace repoSlug,
     createRepoVariable workspace repoSlug varName varValue]
  | some existingVariable =>
    [getRepoVariablesRequest workspace repoSlug,
     updateRepoVariable workspace repoSlug existingVariable.uuid varName varValue]

/-- Model of `BitbucketClient.deleteRepoVariable`: list, find by key; on a
miss return `null` (modelled `none`) without issuing a DELETE, otherwise
DELETE the uuid-qualified path (the transport's response is modelled
`some ()`).  Paired with the trace of requests issued. -/
def deleteRepoVariable (workspace repoSlug varName : String)
    (repoVars : List PipelineVariable) :
    Option Unit × List VariableApiRequest :=
  match repoVars.find? (fun v => v.key == varName) with
  | none => (none, [getRepoVariablesRequest workspace repoSlug])
  | some variableProps =>
    (some (),
     [getRepoVariablesRequest workspace repoSlug,
      .delete (variablesPath workspace repoSlug ++ "/" ++ variableProps.uuid)])

/-- Model of the error thrown by the transport (a `RequestError`): it may
carry an HTTP response with a status code (`err.response.statusCode`), or
no response at all for network-level failures. -/
structure ErrResponse where
  statusCode : Nat
deriving DecidableEq

structure RequestError where
  response : Option ErrResponse
deriving DecidableEq

/-- Model of `BitbucketClient.getFile`: the transport either yields the
raw text body or throws a `RequestError`; a 404 response is mapped to
`null` (`none`), every other error is re-thrown unchanged. -/
def getFile (transport : Except RequestError String) :
    Except RequestError (Option String) :=
  match transport with
  | .ok body => .ok (some body)
  | .error err =>
    match err.response with
    | some r => if r.statusCode = 404 then .ok none else .error err
    | none => .error err

/-- Model of `IAccount` (the fields the client reads). -/
structure Account where
  uuid : String
  display_name : String
deriving DecidableEq

/-- Model of `IDefaultReviewerAndType`. -/
structure DefaultReviewerAndType where
  type : String
  reviewer_type : String
  user : Account
deriving DecidableEq

/-- An element of `getEffectiveDefaultReviewers`' result: the user's
fields spread together with the `reviewer_type` tag. -/
structure EffectiveReviewer where
  uuid : String
  display_name : String
  reviewer_type : String
deriving DecidableEq

/-- The reshaping `({ user, reviewer_type }) => ({ ...user, reviewer_type })`. -/
def mergeReviewerType (r : DefaultReviewerAndType) : EffectiveReviewer :=
  ⟨r.user.uuid, r.user.display_name, r.reviewer_type⟩

/-- Model of the single request `getEffectiveDefaultReviewers` issues. -/
structure EffectiveReviewersRequest where
  workspace : String
  repoSlug : String
deriving DecidableEq

/-- Model of `BitbucketClient.getEffectiveDefaultReviewers`: one request,
whose response's `values` are reshaped with `mergeReviewerType`; the
envelope's `next` link is never consulted and no further request is made. -/
def getEffectiveDefaultReviewers (workspace repoSlug : String) :
    List (PaginatedEnv DefaultReviewerAndType) →
      Option (List EffectiveReviewer × List EffectiveReviewersRequest)
  | [] => none
  | res :: _ => some (res.values.map mergeReviewerType, [⟨workspace, repoSlug⟩])

structure Branch where
  name : String
deriving DecidableEq

structure BranchTarget where
  branch : Branch
deriving DecidableEq

/-- The JSON body `createPullRequest` POSTs to the pullrequests endpoint.
An absent `destination` models the JavaScript `undefined`, which is
dropped from the serialized JSON. -/
structure PullRequestBody where
  title : String
  source : BranchTarget
  destination : Option BranchTarget
  reviewers : List EffectiveReviewer
  close_source_branch : Bool
deriving DecidableEq

/-- Model of `BitbucketClient.createPullRequest`, parameterised by the
current user and the effective default reviewers that its two preliminary
requests return: filter the author out of the reviewers, set `destination`
to `undefined` when no branch is given (JS truthiness: an empty string
also counts as absent), and hard-code `close_source_branch: true`. -/
def createPullRequest (currentUser : Account)
    (effectiveReviewers : List EffectiveReviewer)
    (title sourceBranch : String) (destinationBranch : Option String) :
    PullRequestBody :=
  let defaultReviewers :=
    effectiveReviewers.filter (fun reviewer => currentUser.uuid != reviewer.uuid)
  let destination : Option BranchTarget :=
    match destinationBranch with
    | some d => if d == "" then none else some ⟨⟨d⟩⟩
    | none => none
  ⟨title, ⟨⟨sourceBranch⟩⟩, destination, defaultReviewers, true⟩

/-- Model of the response headers of the `POST .../src` request: the
optional `Location` header, as a list of characters. -/
structure SrcResponseHeaders where
  location : Option (List Char)

/-- JavaScript `String.prototype.split('/')` on a list of characters. -/
def splitOnSlash : List Char → List (List Char)
  | [] => [[]]
  | c :: rest =>
    if c = '/' then [] :: splitOnSlash rest
    else
      match splitOnSlash rest with
      | [] => [[c]]
      | h :: t => (c :: h) :: t

/-- Model of `BitbucketClient.commitFile`'s result:
`res.headers.location.split('/').at(-1) ?? '<unknown>'`. -/
def commitFile (res : SrcResponseHeaders) : List Char :=
  match res.location with
  | some loc => ((splitOnSlash loc).getLast?).getD "<unknown>".toList
  | none => "<unknown>".toList

/-- Model of `BitbucketClient.removeFile`'s result: the same `Location`
header extraction as `commitFile`. -/
def removeFile (res : SrcResponseHeaders) : List Char :=
  match res.location with
  | some loc => ((splitOnSlash loc).getLast?).getD "<unknown>".toList
  | none => "<unknown>".toList

/-- Model of `BitbucketClient.getWorkspace`: the relative URL it requests.
The source template is the workspace id interpolated after `workspaces/`,
followed by a stray closing brace present in the source string. -/
def getWorkspacePath (workspace : String) : String :=
  "workspaces/" ++ workspace ++ "\x7d"

/-!  Helper lemmas. -/

/-- A full pagination run of `getRepositoriesByProject`: when every
envelope before the last has a truthy `next` link and the last does not,
the run returns the concatenation of all pages' `values` in page order and
a trace with one request per page, the first carrying the initial page
argument and each later one carrying the previous envelope's `page`
plus 1. -/
theorem getRepositoriesByProject_run {α : Type} (w k : String) (rp : Option Nat)
    (pre : List (PaginatedEnv α)) (lastEnv : PaginatedEnv α)
    (hpre : ∀ e ∈ pre, truthyString e.next = true)
    (hlast : truthyString lastEnv.next = false) :
    getRepositoriesByProject w k rp (pre ++ [lastEnv]) =
      some (((pre ++ [lastEnv]).map PaginatedEnv.values).flatten,
        RepoListRequest.mk w k (pageParamOf rp) ::
          pre.map (fun e => RepoListRequest.mk w k (some (e.page + 1)))) := by
  induction pre generalizing rp with
  | nil =>
    simp [getRepositoriesByProject, hlast]
  | cons e pre ih =>
    have he : truthyString e.next = true := hpre e (by simp)
    have h2 : ∀ x ∈ pre, truthyString x.next = true := fun x hx => hpre x (by simp [hx])
    simp [getRepositoriesByProject, he, ih (some (e.page + 1)) h2, pageParamOf]

/-- The analogous full-run lemma for `codeSearch`. -/
theorem codeSearch_run {α : Type} (w q : String) (rp : Option Nat)
    (pre : List (PaginatedEnv α)) (lastEnv : PaginatedEnv α)
    (hpre : ∀ e ∈ pre, truthyString e.next = true)
    (hlast : truthyString lastEnv.next = false) :
    codeSearch w q rp (pre ++ [lastEnv]) =
      some (((pre ++ [lastEnv]).map PaginatedEnv.values).flatten,
        codeSearchRequest w q rp ::
          pre.map (fun e => codeSearchRequest w q (some (e.page + 1)))) := by
  induction pre generalizing rp with
  | nil =>
    simp [codeSearch, hlast]
  | cons e pre ih =>
    have he : truthyString e.next = true := hpre e (by simp)
    have h2 : ∀ x ∈ pre, truthyString x.next = true := fun x hx => hpre x (by simp [hx])
    simp [codeSearch, he, ih (some (e.page + 1)) h2]

/-- As soon as some envelope of the script has `next = none`, the
`getRepositoriesByProject` recursion produces a result. -/
theorem getRepositoriesByProject_isSome {α : Type} (w k : String)
    (pre : List (PaginatedEnv α)) (vs : List α) (pg : Nat)
    (rest : List (PaginatedEnv α)) :
    ∀ rp, (getRepositoriesByProject w k rp
      (pre ++ PaginatedEnv.mk vs pg none :: rest)).isSome = true := by
  induction pre with
  | nil =>
    intro rp
    simp [getRepositoriesByProject, truthyString]
  | cons e pre ih =>
    intro rp
    by_cases h : truthyString e.next
    · obtain ⟨val, hval⟩ := Option.isSome_iff_exists.mp (ih (some (e.page + 1)))
      simp [getRepositoriesByProject, h, hval]
    · simp [getRepositoriesByProject, h]

/-- As soon as some envelope of the script has `next = none`, the
`codeSearch` recursion produces a result. -/
theorem codeSearch_isSome {α : Type} (w q : String)
    (pre : List (PaginatedEnv α)) (vs : List α) (pg : Nat)
    (rest : List (PaginatedEnv α)) :
    ∀ rp, (codeSearch w q rp
      (pre ++ PaginatedEnv.mk vs pg none :: rest)).isSome = true := by
  induction pre with
  | nil =>
    intro rp
    simp [codeSearch, truthyString]
  | cons e pre ih =>
    intro rp
    by_cases h : truthyString e.next
    · obtain ⟨val, hval⟩ := Option.isSome_iff_exists.mp (ih (some (e.page + 1)))
      simp [codeSearch, h, hval]
    · simp [codeSearch, h]

/-!  Claims. -/

/-- C1: For every sequence of paginated responses,
`getRepositoriesByProject` and `codeSearch` return the concatenation of
all pages' `values` arrays in page order, issuing one request per page;
the first request omits the page parameter and each subsequent request
carries page equal to the previous response's `page` field plus 1. -/
theorem claim_C1_pagination_aggregation {α β : Type} (w k q : String)
    (preR : List (PaginatedEnv α)) (lastR : PaginatedEnv α)
    (preC : List (PaginatedEnv β)) (lastC : PaginatedEnv β)
    (hR : ∀ e ∈ preR, truthyString e.next = true)
    (hR2 : truthyString lastR.next = false)
    (hC : ∀ e ∈ preC, truthyString e.next = true)
    (hC2 : truthyString lastC.next = false) :
    getRepositoriesByProject w k none (preR ++ [lastR]) =
      some (((preR ++ [lastR]).map PaginatedEnv.values).flatten,
        RepoListRequest.mk w k none ::
          preR.map (fun e => RepoListRequest.mk w k (some (e.page + 1)))) ∧
    (getRepositoriesByProject w k none (preR ++ [lastR])).map
        (fun out => out.2.length) = some (preR ++ [lastR]).length ∧
    codeSearch w q none (preC ++ [lastC]) =
      some (((preC ++ [lastC]).map PaginatedEnv.values).flatten,
        CodeSearchRequest.mk w q "+values.file.commit.repository" none ::
          preC.map (fun e =>
            CodeSearchRequest.mk w q "+values.file.commit.repository" (some (e.page + 1)))) ∧
    (codeSearch w q none (preC ++ [lastC])).map
        (fun out => out.2.length) = some (preC ++ [lastC]).length := by
  have h1 := getRepositoriesByProject_run w k none preR lastR hR hR2
  have h2 := codeSearch_run w q none preC lastC hC hC2
  refine ⟨?_, ?_, ?_, ?_⟩
  · simpa [pageParamOf] using h1
  · rw [h1]; simp
  · simpa [codeSearchRequest, pageParamOf] using h2
  · rw [h2]; simp

/-- Witness for C1: a concrete 3-page run of both methods returns all
values in order with exactly 3 requests, `page=2` and `page=3` on the
second and third, no page parameter on the first. -/
theorem claim_C1_pagination_aggregation_witness :
    getRepositoriesByProject "ws" "PROJ" none
        [PaginatedEnv.mk [10, 11] 1 (some "https://next/2"),
         PaginatedEnv.mk [12] 2 (some "https://next/3"),
         PaginatedEnv.mk [13, 14] 3 none] =
      some ([10, 11, 12, 13, 14],
        [RepoListRequest.mk "ws" "PROJ" none,
         RepoListRequest.mk "ws" "PROJ" (some 2),
         RepoListRequest.mk "ws" "PROJ" (some 3)]) ∧
    codeSearch "ws" "needle" none
        [PaginatedEnv.mk [20] 1 (some "https://next/2"),
         PaginatedEnv.mk [21] 2 (some "https://next/3"),
         PaginatedEnv.mk [22] 3 none] =
      some ([20, 21, 22],
        [CodeSearchRequest.mk "ws" "needle" "+values.file.commit.repository" none,
         CodeSearchRequest.mk "ws" "needle" "+values.file.commit.repository" (some 2),
         CodeSearchRequest.mk "ws" "needle" "+values.file.commit.repository" (some 3)]) := by
  have h := @claim_C1_pagination_aggregation Nat Nat "ws" "PROJ" "needle"
    [PaginatedEnv.mk [10, 11] 1 (some "https://next/2"),
     PaginatedEnv.mk [12] 2 (some "https://next/3")]
    (PaginatedEnv.mk [13, 14] 3 none)
    [PaginatedEnv.mk [20] 1 (some "https://next/2"),
     PaginatedEnv.mk [21] 2 (some "https://next/3")]
    (PaginatedEnv.mk [22] 3 none)
    (by decide) (by decide) (by decide) (by decide)
  exact ⟨by simpa using h.1, by simpa using h.2.2.1⟩

/-- C2: A response whose envelope has no `next` field terminates the
pagination of `getRepositoriesByProject` and `codeSearch`: exactly one
request is issued for that page and its `values` are returned unchanged;
hence any script in which some page lacks `next` yields a result. -/
theorem claim_C2_pagination_termination {α β : Type} (w k q : String)
    (rp rq : Option Nat) (vsR : List α) (pgR : Nat) (restR : List (PaginatedEnv α))
    (vsC : List β) (pgC : Nat) (restC : List (PaginatedEnv β))
    (preR : List (PaginatedEnv α)) (preC : List (PaginatedEnv β)) :
    getRepositoriesByProject w k rp (PaginatedEnv.mk vsR pgR none :: restR) =
      some (vsR, [RepoListRequest.mk w k (pageParamOf rp)]) ∧
    codeSearch w q rq (PaginatedEnv.mk vsC pgC none :: restC) =
      some (vsC, [codeSearchRequest w q rq]) ∧
    (getRepositoriesByProject w k rp
      (preR ++ PaginatedEnv.mk vsR pgR none :: restR)).isSome = true ∧
    (codeSearch w q rq
      (preC ++ PaginatedEnv.mk vsC pgC none :: restC)).isSome = true := by
  refine ⟨?_, ?_, ?_, ?_⟩
  · simp [getRepositoriesByProject, truthyString]
  · simp [codeSearch, truthyString]
  · exact getRepositoriesByProject_isSome w k preR vsR pgR restR rp
  · exact codeSearch_isSome w q preC vsC pgC restC rq

/-- When no listed variable has key `X`, the lookup fails. -/
theorem find_key_eq_none {l : List PipelineVariable} {X : String}
    (h : ∀ v ∈ l, v.key ≠ X) : l.find? (fun v => v.key == X) = none := by
  induction l with
  | nil => rfl
  | cons a t ih =>
    have ha : (a.key == X) = false := by
      simpa using h a (by simp)
    rw [List.find?_cons_of_neg _ (by simp [ha])]
    exact ih fun v hv => h v (by simp [hv])

/-- When `v` is the unique listed variable with key `X`, the lookup finds
it. -/
theorem find_key_eq_some {l : List PipelineVariable} {X : String}
    {v : PipelineVariable} (hv : v ∈ l) (hk : v.key = X)
    (huniq : ∀ u ∈ l, u.key = X → u = v) :
    l.find? (fun u => u.key == X) = some v := by
  induction l with
  | nil => cases hv
  | cons a t ih =>
    by_cases ha : a.key = X
    · have hav : a = v := huniq a (by simp) ha
      rw [List.find?_cons_of_pos _ (by simp [ha])]
      rw [hav]
    · rw [List.find?_cons_of_neg _ (by simp [ha])]
      have hvt : v ∈ t := by
        rcases List.mem_cons.mp hv with h1 | h1
        · exact absurd (h1 ▸ hk) ha
        · exact h1
      exact ih hvt fun u hu hX => huniq u (by simp [hu]) hX

/-- C3: `setRepoVariable` issues exactly one POST (create) and no PUT when
no listed variable has key `X`, and exactly one PUT to the uuid-qualified
path (update) and no POST when the variable exists; never both. -/
theorem claim_C3_set_variable_create_or_update
    (w s X val : String) (repoVars : List PipelineVariable) :
    ((∀ v ∈ repoVars, v.key ≠ X) →
      setRepoVariable w s X val repoVars =
        [getRepoVariablesRequest w s, createRepoVariable w s X val] ∧
      (setRepoVariable w s X val repoVars).countP VariableApiRequest.isPost = 1 ∧
      (setRepoVariable w s X val repoVars).countP VariableApiRequest.isPut = 0) ∧
    (∀ v ∈ repoVars, v.key = X → (∀ u ∈ repoVars, u.key = X → u = v) →
      setRepoVariable w s X val repoVars =
        [getRepoVariablesRequest w s, updateRepoVariable w s v.uuid X val] ∧
      updateRepoVariable w s v.uuid X val =
        VariableApiRequest.put (variablesPath w s ++ "/" ++ v.uuid)
          (UpdateVariableBody.mk "pipeline_variable" v.uuid X val true) ∧
      (∃ a, variablesPath w s ++ "/" ++ v.uuid = a ++ v.uuid) ∧
      (setRepoVariable w s X val repoVars).countP VariableApiRequest.isPut = 1 ∧
      (setRepoVariable w s X val repoVars).countP VariableApiRequest.isPost = 0) := by
  constructor
  · intro h
    have hf := find_key_eq_none h
    refine ⟨by simp [setRepoVariable, hf], ?_, ?_⟩ <;>
      simp [setRepoVariable, hf, List.countP_cons, getRepoVariablesRequest,
        createRepoVariable, VariableApiRequest.isPost, VariableApiRequest.isPut]
  · intro v hv hk huniq
    have hf := find_key_eq_some hv hk huniq
    refine ⟨by simp [setRepoVariable, hf], rfl,
      ⟨variablesPath w s ++ "/", by rw [String.append_assoc]⟩, ?_, ?_⟩ <;>
      simp [setRepoVariable, hf, List.countP_cons, getRepoVariablesRequest,
        updateRepoVariable, VariableApiRequest.isPost, VariableApiRequest.isPut]

/-- Witness for C3: with one listed variable named `OLD`, setting `NEW`
issues the POST and setting `OLD` issues the PUT to its uuid. -/
theorem claim_C3_set_variable_create_or_update_witness :
    setRepoVariable "w" "r" "NEW" "v" [PipelineVariable.mk "u-1" "OLD" "x" true] =
      [getRepoVariablesRequest "w" "r", createRepoVariable "w" "r" "NEW" "v"] ∧
    setRepoVariable "w" "r" "OLD" "v" [PipelineVariable.mk "u-1" "OLD" "x" true] =
      [getRepoVariablesRequest "w" "r", updateRepoVariable "w" "r" "u-1" "OLD" "v"] := by
  constructor
  · exact ((claim_C3_set_variable_create_or_update "w" "r" "NEW" "v"
      [PipelineVariable.mk "u-1" "OLD" "x" true]).1 (by decide)).1
  · exact ((claim_C3_set_variable_create_or_update "w" "r" "OLD" "v"
      [PipelineVariable.mk "u-1" "OLD" "x" true]).2
      (PipelineVariable.mk "u-1" "OLD" "x" true) (by decide) rfl (by decide)).1

/-- C4: `deleteRepoVariable` on a missing key returns `null` and issues no
DELETE; on an existing key it issues exactly one DELETE to the path
containing that entry's uuid. -/
theorem claim_C4_delete_variable_missing_key
    (w s X : String) (repoVars : List PipelineVariable) :
    ((∀ v ∈ repoVars, v.key ≠ X) →
      deleteRepoVariable w s X repoVars = (none, [getRepoVariablesRequest w s]) ∧
      (deleteRepoVariable w s X repoVars).2.countP VariableApiRequest.isDelete = 0) ∧
    (∀ v ∈ repoVars, v.key = X → (∀ u ∈ repoVars, u.key = X → u = v) →
      deleteRepoVariable w s X repoVars =
        (some (), [getRepoVariablesRequest w s,
          VariableApiRequest.delete (variablesPath w s ++ "/" ++ v.uuid)]) ∧
      (∃ a, variablesPath w s ++ "/" ++ v.uuid = a ++ v.uuid) ∧
      (deleteRepoVariable w s X repoVars).2.countP VariableApiRequest.isDelete = 1) := by
  constructor
  · intro h
    have hf := find_key_eq_none h
    refine ⟨by simp [deleteRepoVariable, hf], ?_⟩
    simp [deleteRepoVariable, hf, List.countP_cons, getRepoVariablesRequest,
      VariableApiRequest.isDelete]
  · intro v hv hk huniq
    have hf := find_key_eq_some hv hk huniq
    refine ⟨by simp [deleteRepoVariable, hf],
      ⟨variablesPath w s ++ "/", by rw [String.append_assoc]⟩, ?_⟩
    simp [deleteRepoVariable, hf, List.countP_cons, getRepoVariablesRequest,
      VariableApiRequest.isDelete]

/-- Witness for C4: deleting the absent key `NEW` returns `null` with no
DELETE; deleting the present key `OLD` issues the DELETE to its uuid. -/
theorem claim_C4_delete_variable_missing_key_witness :
    deleteRepoVariable "w" "r" "NEW" [PipelineVariable.mk "u-1" "OLD" "x" true] =
      (none, [getRepoVariablesRequest "w" "r"]) ∧
    deleteRepoVariable "w" "r" "OLD" [PipelineVariable.mk "u-1" "OLD" "x" true] =
      (some (), [getRepoVariablesRequest "w" "r",
        VariableApiRequest.delete (variablesPath "w" "r" ++ "/" ++ "u-1")]) := by
  constructor
  · exact ((claim_C4_delete_variable_missing_key "w" "r" "NEW"
      [PipelineVariable.mk "u-1" "OLD" "x" true]).1 (by decide)).1
  · exact ((claim_C4_delete_variable_missing_key "w" "r" "OLD"
      [PipelineVariable.mk "u-1" "OLD" "x" true]).2
      (PipelineVariable.mk "u-1" "OLD" "x" true) (by decide) rfl (by decide)).1

/-- C10: every variable-write body produced by `createRepoVariable`,
`updateRepoVariable`, and hence by every `setRepoVariable` call, has
`secured` hard-coded to `true`, whatever the caller passes. -/
theorem claim_C10_secured_hardcoded (w s n val u : String)
    (repoVars : List PipelineVariable) :
    (createRepoVariable w s n val).securedField = some true ∧
    (updateRepoVariable w s u n val).securedField = some true ∧
    ∀ r ∈ setRepoVariable w s n val repoVars,
      r.securedField = none ∨ r.securedField = some true := by
  refine ⟨rfl, rfl, ?_⟩
  intro r hr
  rcases hfind : repoVars.find? (fun v => v.key == n) with _ | ex <;>
    rw [setRepoVariable, hfind] at hr <;>
    simp only [List.mem_cons, List.not_mem_nil, or_false] at hr <;>
    rcases hr with h | h <;>
    simp [h, getRepoVariablesRequest, createRepoVariable, updateRepoVariable,
      VariableApiRequest.securedField]

/-- Witness for C10: concrete create, update and set requests all carry
`secured = true`. -/
theorem claim_C10_secured_hardcoded_witness :
    (createRepoVariable "w" "r" "K" "V").securedField = some true ∧
    (updateRepoVariable "w" "r" "u-1" "K" "V").securedField = some true ∧
    ((createRepoVariable "w" "r" "K" "V").securedField = none ∨
      (createRepoVariable "w" "r" "K" "V").securedField = some true) := by
  have h := claim_C10_secured_hardcoded "w" "r" "K" "V" "u-1" []
  exact ⟨h.1, h.2.1, h.2.2 (createRepoVariable "w" "r" "K" "V") (by decide)⟩

/-- C5: `getFile` maps an HTTP 404 failure to `null`, re-throws every
other failure (non-404 status or network error without a response)
unchanged, and returns the raw text body on success. -/
theorem claim_C5_getFile_404_handling (body : String) (err : RequestError) :
    getFile (Except.ok body) = Except.ok (some body) ∧
    (err.response = some (ErrResponse.mk 404) →
      getFile (Except.error err) = Except.ok none) ∧
    (∀ r, err.response = some r → r.statusCode ≠ 404 →
      getFile (Except.error err) = Except.error err) ∧
    (err.response = none → getFile (Except.error err) = Except.error err) := by
  refine ⟨rfl, ?_, ?_, ?_⟩
  · intro h
    simp [getFile, h]
  · intro r h h404
    simp [getFile, h, h404]
  · intro h
    simp [getFile, h]

/-- Witness for C5: a 404 yields `null`, a 500 and a response-less network
error re-throw, success returns the body. -/
theorem claim_C5_getFile_404_handling_witness :
    getFile (Except.ok "file contents") = Except.ok (some "file contents") ∧
    getFile (Except.error (RequestError.mk (some (ErrResponse.mk 404)))) =
      Except.ok none ∧
    getFile (Except.error (RequestError.mk (some (ErrResponse.mk 500)))) =
      Except.error (RequestError.mk (some (ErrResponse.mk 500))) ∧
    getFile (Except.error (RequestError.mk none)) =
      Except.error (RequestError.mk none) := by
  refine ⟨(claim_C5_getFile_404_handling "file contents"
      (RequestError.mk (some (ErrResponse.mk 404)))).1, ?_, ?_, ?_⟩
  · exact (claim_C5_getFile_404_handling "file contents"
      (RequestError.mk (some (ErrResponse.mk 404)))).2.1 rfl
  · exact (claim_C5_getFile_404_handling "file contents"
      (RequestError.mk (some (ErrResponse.mk 500)))).2.2.1
      (ErrResponse.mk 500) rfl (by decide)
  · exact (claim_C5_getFile_404_handling "file contents"
      (RequestError.mk none)).2.2.2 rfl

/-- C6: `createPullRequest` submits the effective reviewer list with
exactly the entries carrying the current user's uuid removed, always sets
`close_source_branch` to `true`, and omits `destination` when no
destination branch is given. -/
theorem claim_C6_pr_reviewer_exclusion (u : Account)
    (R : List EffectiveReviewer) (t s : String) (d : Option String) :
    (createPullRequest u R t s d).reviewers =
      R.filter (fun r => !(r.uuid == u.uuid)) ∧
    (createPullRequest u R t s d).close_source_branch = true ∧
    (createPullRequest u R t s none).destination = none ∧
    (∀ A B cu : EffectiveReviewer, cu.uuid = u.uuid →
      A.uuid ≠ u.uuid → B.uuid ≠ u.uuid →
      (createPullRequest u [A, B, cu] t s d).reviewers = [A, B]) := by
  refine ⟨?_, rfl, rfl, ?_⟩
  · show R.filter (fun r => u.uuid != r.uuid) = R.filter (fun r => !(r.uuid == u.uuid))
    exact List.filter_congr fun r _ => by simp [bne, eq_comm]
  · intro A B cu hcu hA hB
    show List.filter (fun r => u.uuid != r.uuid) [A, B, cu] = [A, B]
    have h1 : (u.uuid != A.uuid) = true := by simp [bne]; exact fun h => hA h.symm
    have h2 : (u.uuid != B.uuid) = true := by simp [bne]; exact fun h => hB h.symm
    have h3 : (u.uuid != cu.uuid) = false := by simp [bne, hcu]
    simp [List.filter, h1, h2, h3]

/-- Witness for C6: with effective reviewers `[A, B, currentUser]` the
submitted list is `[A, B]`, `close_source_branch` is `true` and the
destination is absent. -/
theorem claim_C6_pr_reviewer_exclusion_witness :
    (createPullRequest (Account.mk "u-me" "Me")
        [EffectiveReviewer.mk "u-a" "Alice" "project_reviewer",
         EffectiveReviewer.mk "u-b" "Bob" "repository_reviewer",
         EffectiveReviewer.mk "u-me" "Me" "repository_reviewer"]
        "Title" "feature" none).reviewers =
      [EffectiveReviewer.mk "u-a" "Alice" "project_reviewer",
       EffectiveReviewer.mk "u-b" "Bob" "repository_reviewer"] ∧
    (createPullRequest (Account.mk "u-me" "Me") [] "Title" "feature" none).close_source_branch
       = true ∧
    (createPullRequest (Account.mk "u-me" "Me") [] "Title" "feature" none).destination
       = none := by
  refine ⟨?_, ?_, ?_⟩
  · exact (claim_C6_pr_reviewer_exclusion (Account.mk "u-me" "Me")
      [EffectiveReviewer.mk "u-a" "Alice" "project_reviewer",
       EffectiveReviewer.mk "u-b" "Bob" "repository_reviewer",
       EffectiveReviewer.mk "u-me" "Me" "repository_reviewer"]
      "Title" "feature" none).2.2.2
      (EffectiveReviewer.mk "u-a" "Alice" "project_reviewer")
      (EffectiveReviewer.mk "u-b" "Bob" "repository_reviewer")
      (EffectiveReviewer.mk "u-me" "Me" "repository_reviewer")
      rfl (by decide) (by decide)
  · exact (claim_C6_pr_reviewer_exclusion (Account.mk "u-me" "Me") []
      "Title" "feature" none).2.1
  · exact (claim_C6_pr_reviewer_exclusion (Account.mk "u-me" "Me") []
      "Title" "feature" none).2.2.1

/-- C8 counterexample: on a 2-page script whose first page carries a
`next` link, `getEffectiveDefaultReviewers` returns only the first page's
reviewer, not the concatenation of both pages. -/
theorem claim_C8_counterexample :
    (getEffectiveDefaultReviewers "ws" "repo"
        [PaginatedEnv.mk
          [DefaultReviewerAndType.mk "default_reviewer" "project_reviewer"
            (Account.mk "u-a" "Alice")] 1 (some "https://next/2"),
         PaginatedEnv.mk
          [DefaultReviewerAndType.mk "default_reviewer" "repository_reviewer"
            (Account.mk "u-b" "Bob")] 2 none]).map Prod.fst =
      some [EffectiveReviewer.mk "u-a" "Alice" "project_reviewer"] ∧
    (some [EffectiveReviewer.mk "u-a" "Alice" "project_reviewer"] :
        Option (List EffectiveReviewer)) ≠
      some [EffectiveReviewer.mk "u-a" "Alice" "project_reviewer",
            EffectiveReviewer.mk "u-b" "Bob" "repository_reviewer"] := by
  exact ⟨rfl, by decide⟩

/-- C8 (amended): `getEffectiveDefaultReviewers` issues exactly one
request and returns only the first response's reviewers, reshaped with
their `reviewer_type`; it never follows the envelope's `next` link. -/
theorem claim_C8_single_page_only (workspace repoSlug : String)
    (res : PaginatedEnv DefaultReviewerAndType)
    (rest : List (PaginatedEnv DefaultReviewerAndType)) :
    getEffectiveDefaultReviewers workspace repoSlug (res :: rest) =
      some (res.values.map mergeReviewerType,
        [EffectiveReviewersRequest.mk workspace repoSlug]) := rfl

/-- C9: the claim states the `getWorkspace` request path is exactly
`workspaces/` followed by the workspace id; the source appends a stray
closing brace, so the path for workspace `acme` ends in a brace. -/
theorem claim_C9_workspace_path_stray_brace :
    getWorkspacePath "acme" = "workspaces/acme\x7d" ∧
    getWorkspacePath "acme" ≠ "workspaces/" ++ "acme" := by
  exact ⟨rfl, by decide⟩

/-- `split` never yields an empty array. -/
theorem splitOnSlash_ne_nil (l : List Char) : splitOnSlash l ≠ [] := by
  cases l with
  | nil => simp [splitOnSlash]
  | cons c rest =>
    rw [splitOnSlash]
    by_cases h : c = '/'
    · simp [h]
    · rw [if_neg h]
      cases splitOnSlash rest <;> simp

/-- A slash-free string splits into the single part that is itself. -/
theorem splitOnSlash_no_slash (l : List Char) (h : '/' ∉ l) :
    splitOnSlash l = [l] := by
  induction l with
  | nil => rfl
  | cons c rest ih =>
    have hc : ¬c = '/' := fun e => h (by simp [e])
    have hr : '/' ∉ rest := fun hm => h (by simp [hm])
    rw [splitOnSlash, if_neg hc, ih hr]

/-- A string containing a slash splits into at least two parts. -/
theorem splitOnSlash_append_length (s t : List Char) :
    2 ≤ (splitOnSlash (s ++ '/' :: t)).length := by
  induction s with
  | nil =>
    rw [List.nil_append, splitOnSlash, if_pos rfl]
    have h := splitOnSlash_ne_nil t
    cases hs : splitOnSlash t with
    | nil => exact absurd hs h
    | cons a l => simp
  | cons c s ih =>
    rw [List.cons_append, splitOnSlash]
    by_cases hc : c = '/'
    · rw [if_pos hc]
      have h := splitOnSlash_ne_nil (s ++ '/' :: t)
      cases hs : splitOnSlash (s ++ '/' :: t) with
      | nil => exact absurd hs h
      | cons a l => simp
    · rw [if_neg hc]
      cases hs : splitOnSlash (s ++ '/' :: t) with
      | nil => exact absurd hs (splitOnSlash_ne_nil _)
      | cons a l =>
        rw [hs] at ih
        simpa using ih

/-- The last part of a split is determined by the text after the last
slash. -/
theorem splitOnSlash_append_getLast (s t : List Char) :
    (splitOnSlash (s ++ '/' :: t)).getLast? = (splitOnSlash t).getLast? := by
  induction s with
  | nil =>
    rw [List.nil_append, splitOnSlash, if_pos rfl]
    have h := splitOnSlash_ne_nil t
    cases hs : splitOnSlash t with
    | nil => exact absurd hs h
    | cons a l => rw [List.getLast?_cons_cons]
  | cons c s ih =>
    rw [List.cons_append, splitOnSlash]
    by_cases hc : c = '/'
    · rw [if_pos hc]
      have h := splitOnSlash_ne_nil (s ++ '/' :: t)
      cases hs : splitOnSlash (s ++ '/' :: t) with
      | nil => exact absurd hs h
      | cons a l => rw [List.getLast?_cons_cons, ← hs, ih]
    · rw [if_neg hc]
      cases hs : splitOnSlash (s ++ '/' :: t) with
      | nil => exact absurd hs (splitOnSlash_ne_nil _)
      | cons a l =>
        have hlen := splitOnSlash_append_length s t
        rw [hs] at hlen
        cases l with
        | nil => simp at hlen
        | cons b l2 =>
          rw [List.getLast?_cons_cons, ← ih, hs, List.getLast?_cons_cons]

/-- C7: for a `Location` header ending in a slash-free segment,
`commitFile` and `removeFile` resolve to the substring after the last
slash; when the header is absent they resolve to the sentinel
`<unknown>`. -/
theorem claim_C7_commit_hash_extraction (s t : List Char) (h : '/' ∉ t) :
    commitFile (SrcResponseHeaders.mk (some (s ++ '/' :: t))) = t ∧
    removeFile (SrcResponseHeaders.mk (some (s ++ '/' :: t))) = t ∧
    commitFile (SrcResponseHeaders.mk none) = "<unknown>".toList ∧
    removeFile (SrcResponseHeaders.mk none) = "<unknown>".toList := by
  have key : (splitOnSlash (s ++ '/' :: t)).getLast? = some t := by
    rw [splitOnSlash_append_getLast, splitOnSlash_no_slash t h]
    rfl
  refine ⟨?_, ?_, rfl, rfl⟩ <;> simp [commitFile, removeFile, key]

/-- Witness for C7: a `Location` ending in `/commit/abc123` yields
`abc123`; a missing header yields the sentinel. -/
theorem claim_C7_commit_hash_extraction_witness :
    commitFile (SrcResponseHeaders.mk
        (some ("repositories/acme/repo/src/commit".toList ++ '/' :: "abc123".toList))) =
      "abc123".toList ∧
    commitFile (SrcResponseHeaders.mk none) = "<unknown>".toList := by
  have h := claim_C7_commit_hash_extraction
    "repositories/acme/repo/src/commit".toList "abc123".toList (by decide)
  exact ⟨h.1, h.2.2.1⟩

end Bitbucket
